import Mathlib

set_option maxHeartbeats 1000000

/-!
A shallow embedding of the Game of Life core of `src/main.rs` (the `Cell`
enum and the `Universe` struct with its methods), together with proofs of
the behavioural properties stated in the design document.

Machine integers (`u32`, `u8`, `usize`) are modelled as `Nat`; every value
arising in the simulator core stays far below the respective bounds, so no
wraparound is observable.  Rust vector indexing panics when out of bounds;
it is modelled by `Option`-returning lookups (`l[i]?`), so a method that
indexes returns `Option` and a panic is `none`.
-/

/-- The `Cell` enum: `Dead = 0`, `Alive = 1`. -/
inductive Cell : Type
  | Dead : Cell
  | Alive : Cell
deriving DecidableEq

/-- The numeric value of a cell (`cell as u8` in the source). -/
def Cell.toNat : Cell → Nat
  | Cell.Dead => 0
  | Cell.Alive => 1

/-- The `Universe` struct: width, height, row-major cell vector, dirty flag. -/
structure Universe : Type where
  width : Nat
  height : Nat
  cells : List Cell
  dirty : Bool
deriving DecidableEq

/-- `Universe::get_index`: row-major index `row * width + column`. -/
def Universe.get_index (u : Universe) (row col : Nat) : Nat :=
  row * u.width + col

/-- `Universe::get_cell_state`: indexed lookup of the cell vector. -/
def Universe.get_cell_state (u : Universe) (row col : Nat) : Option Cell :=
  u.cells[u.get_index row col]?

/-- The nine `(drow, dcol)` pairs visited by the nested loops of
`Universe::live_neighbors`, in loop order. -/
def neighborOffsets : List (Int × Int) :=
  [(-1, -1), (-1, 0), (-1, 1), (0, -1), (0, 0), (0, 1), (1, -1), (1, 0), (1, 1)]

/-- The `continue` condition of `Universe::live_neighbors`, verbatim. -/
def skipOffset (u : Universe) (row col : Nat) (drow dcol : Int) : Bool :=
  (drow == 0 && dcol == 0) ||
  (drow == -1 && row == 0) ||
  (drow == 1 && row == u.height - 1) ||
  (dcol == -1 && col == 0) ||
  (dcol == 1 && col == u.width - 1)

/-- The index computed for a non-skipped offset:
`get_index(((row as i32) + drow) as u32, ((column as i32) + dcol) as u32)`.
(The offset is only used when the sum is nonnegative, where the cast is
the identity.) -/
def neighborIndex (u : Universe) (row col : Nat) (drow dcol : Int) : Nat :=
  ((row : Int) + drow).toNat * u.width + ((col : Int) + dcol).toNat

/-- One iteration of the inner loop of `Universe::live_neighbors`. -/
def neighborStep (u : Universe) (row col : Nat) (count : Nat) (d : Int × Int) :
    Option Nat :=
  if skipOffset u row col d.1 d.2 then
    pure count
  else do
    let cell ← u.cells[neighborIndex u row col d.1 d.2]?
    pure (count + cell.toNat)

/-- `Universe::live_neighbors`: fold the loop body over the nine offsets. -/
def Universe.live_neighbors (u : Universe) (row col : Nat) : Option Nat :=
  neighborOffsets.foldlM (neighborStep u row col) 0

/-- The `match (cell, live_neighbors)` of `Universe::tick`, arm by arm. -/
def nextCellState (cell : Cell) (live : Nat) : Cell :=
  if cell = Cell.Alive ∧ live < 2 then Cell.Dead
  else if (cell = Cell.Alive ∧ live = 2) ∨ (cell = Cell.Alive ∧ live = 3) then
    Cell.Alive
  else if cell = Cell.Alive ∧ live > 3 then Cell.Dead
  else if cell = Cell.Dead ∧ live = 3 then Cell.Alive
  else cell

/-- One iteration of the nested loops of `Universe::tick`: read the current
cell, its neighbor count, write the successor into `next`, and update the
dirty flag by comparing against the value held in `next` before the write. -/
def tickStep (u : Universe) (st : List Cell × Bool) (rc : Nat × Nat) :
    Option (List Cell × Bool) := do
  let idx := u.get_index rc.1 rc.2
  let cell ← u.cells[idx]?
  let live ← u.live_neighbors rc.1 rc.2
  let nextCell := nextCellState cell live
  let prev ← st.1[idx]?
  pure (st.1.set idx nextCell, st.2 || decide (prev ≠ nextCell))

/-- The row-major enumeration `for row in 0..height { for col in 0..width }`. -/
def gridCoords (height width : Nat) : List (Nat × Nat) :=
  (List.range height).flatMap (fun row =>
    (List.range width).map (fun col => (row, col)))

/-- `Universe::tick`: start from `dirty = false` and `next = cells.clone()`,
run the loop body over all coordinates, then swap in the successor vector. -/
def Universe.tick (u : Universe) : Option Universe := do
  let (next, dirty) ← (gridCoords u.height u.width).foldlM (tickStep u)
    (u.cells, false)
  pure { u with cells := next, dirty := dirty }

/-- `Universe::new`: `width * height` cells, each drawn from the random byte
stream `rnd` (cell `i` is `Alive` iff the i-th random byte is odd), and
`dirty = true`. -/
def Universe.new (width height : Nat) (rnd : Nat → Nat) : Universe :=
  { width := width
    height := height
    cells := (List.range (width * height)).map (fun i =>
      if rnd i % 2 = 1 then Cell.Alive else Cell.Dead)
    dirty := true }

/-- A well-formed grid in the sense of the design document. -/
def Universe.WellFormed (u : Universe) : Prop :=
  u.cells.length = u.width * u.height ∧ 0 < u.width ∧ 0 < u.height

/-! ### A pure closed form for `live_neighbors` -/

/-- The contribution of a single loop iteration of `live_neighbors`:
zero when skipped, otherwise the numeric value of the cell it reads. -/
def neighborContrib (u : Universe) (row col : Nat) (d : Int × Int) : Nat :=
  if skipOffset u row col d.1 d.2 then 0
  else (u.cells.getD (neighborIndex u row col d.1 d.2) Cell.Dead).toNat

/-- The pure value computed by `live_neighbors`. -/
def liveNeighborsCount (u : Universe) (row col : Nat) : Nat :=
  (neighborOffsets.map (neighborContrib u row col)).sum

/-! ### A pure closed form for `tick` -/

/-- The successor value `tick` computes for one coordinate, read off the
pre-advance cell vector. -/
def newCellAt (u : Universe) (row col : Nat) : Cell :=
  nextCellState (u.cells.getD (u.get_index row col) Cell.Dead)
    (liveNeighborsCount u row col)

/-- The pure effect of one `tick` loop iteration on `(next, dirty)`. -/
def pureStep (u : Universe) (st : List Cell × Bool) (rc : Nat × Nat) :
    List Cell × Bool :=
  (st.1.set (u.get_index rc.1 rc.2) (newCellAt u rc.1 rc.2),
   st.2 || decide (st.1.getD (u.get_index rc.1 rc.2) Cell.Dead ≠
     newCellAt u rc.1 rc.2))

/-- The pure `(next, dirty)` pair computed by the loops of `tick`. -/
def tickFold (u : Universe) : List Cell × Bool :=
  (gridCoords u.height u.width).foldl (pureStep u) (u.cells, false)

/-! ### Statement-level definitions taken from the design document -/

/-- The Game-of-Life transition table as the design document states it:
an `Alive` cell with fewer than 2 live neighbors dies, with 2 or 3 lives,
with more than 3 dies; a `Dead` cell with exactly 3 live neighbors is born,
otherwise it stays `Dead`. -/
def golSpecRule (c : Cell) (n : Nat) : Cell :=
  match c with
  | Cell.Alive =>
    if n < 2 then Cell.Dead
    else if n = 2 ∨ n = 3 then Cell.Alive
    else Cell.Dead
  | Cell.Dead => if n = 3 then Cell.Alive else Cell.Dead

/-- The neighbor count as the design document states it: the sum of the
`Alive`/`Dead` (1/0) values of exactly those of the eight non-zero offsets
whose target coordinate lies inside the grid; out-of-range offsets
contribute nothing. -/
def specNeighborCount (u : Universe) (row col : Nat) : Nat :=
  (neighborOffsets.map (fun d =>
    if d ≠ ((0 : Int), (0 : Int)) ∧
       0 ≤ (row : Int) + d.1 ∧ (row : Int) + d.1 < (u.height : Int) ∧
       0 ≤ (col : Int) + d.2 ∧ (col : Int) + d.2 < (u.width : Int) then
      (u.cells.getD (((row : Int) + d.1).toNat * u.width +
        ((col : Int) + d.2).toNat) Cell.Dead).toNat
    else 0)).sum

/-- Indicator of membership in the 2-by-2 block with top-left corner
`(r0, c0)`, for a possibly out-of-range (hence integer) coordinate. -/
def blockInd (r0 c0 : Nat) (x y : Int) : Nat :=
  if (r0 : Int) ≤ x ∧ x ≤ (r0 : Int) + 1 ∧ (c0 : Int) ≤ y ∧ y ≤ (c0 : Int) + 1
  then 1 else 0

/-- Indicator of membership in the two-row (or two-column) band starting
at `a`, for an integer coordinate. -/
def rowBand (a : Nat) (x : Int) : Nat :=
  if (a : Int) ≤ x ∧ x ≤ (a : Int) + 1 then 1 else 0

/-! ### Concrete example grids -/

/-- A 3-by-3 grid with its middle row alive (a horizontal blinker). -/
def blinkerH : Universe :=
  ⟨3, 3, [Cell.Dead, Cell.Dead, Cell.Dead, Cell.Alive, Cell.Alive, Cell.Alive,
    Cell.Dead, Cell.Dead, Cell.Dead], true⟩

/-- A 2-by-2 grid with three alive cells. -/
def twoByTwo : Universe :=
  ⟨2, 2, [Cell.Alive, Cell.Alive, Cell.Alive, Cell.Dead], true⟩

/-- A 4-by-4 grid holding a 2-by-2 block of alive cells in its middle. -/
def blockFour : Universe :=
  ⟨4, 4, [Cell.Dead, Cell.Dead, Cell.Dead, Cell.Dead,
    Cell.Dead, Cell.Alive, Cell.Alive, Cell.Dead,
    Cell.Dead, Cell.Alive, Cell.Alive, Cell.Dead,
    Cell.Dead, Cell.Dead, Cell.Dead, Cell.Dead], true⟩

/-! ### Generic helper lemmas -/

/-- A `foldlM` over `Option` whose step always succeeds (on states satisfying
an invariant preserved by the step) computes the corresponding pure `foldl`. -/
theorem foldlM_eq_some_foldl {α β : Type} (f : β → α → Option β) (g : β → α → β)
    (I : β → Prop) (L : List α)
    (hf : ∀ b a, a ∈ L → I b → f b a = some (g b a))
    (hI : ∀ b a, a ∈ L → I b → I (g b a)) :
    ∀ b, I b → L.foldlM f b = some (L.foldl g b) := by
  induction L with
  | nil => intro b _; rfl
  | cons a L ih =>
    intro b hb
    rw [List.foldlM_cons, hf b a (List.mem_cons_self a L) hb]
    simpa [List.foldl_cons] using
      ih (fun b' a' ha' hb' => hf b' a' (List.mem_cons_of_mem _ ha') hb')
        (fun b' a' ha' hb' => hI b' a' (List.mem_cons_of_mem _ ha') hb')
        (g b a) (hI b a (List.mem_cons_self a L) hb)

/-- Folding `Nat` addition of `f` over a list sums the mapped list. -/
theorem foldl_add_eq_sum {α : Type} (f : α → Nat) (L : List α) :
    ∀ n : Nat, L.foldl (fun c a => c + f a) n = n + (L.map f).sum := by
  induction L with
  | nil => simp
  | cons a L ih => intro n; simp [List.foldl_cons, ih]; omega

/-- `getD` after `set` at a different index is unchanged. -/
theorem getD_set_ne {α : Type} (l : List α) {i j : Nat} (h : i ≠ j) (a d : α) :
    (l.set i a).getD j d = l.getD j d := by
  rw [List.getD_eq_getElem?_getD, List.getD_eq_getElem?_getD,
    List.getElem?_set_ne h]

/-- `getD` after `set` at the same (in-range) index is the written value. -/
theorem getD_set_self {α : Type} (l : List α) {i : Nat} (h : i < l.length)
    (a d : α) : (l.set i a).getD i d = a := by
  have h' : i < (l.set i a).length := by simpa using h
  rw [List.getD_eq_getElem _ _ h', List.getElem_set]
  simp

/-! ### Index arithmetic -/

/-- A row-major index of an in-range coordinate is in range. -/
theorem index_lt_of_lt {r c w h : Nat} (hr : r < h) (hc : c < w) :
    r * w + c < w * h := by
  calc r * w + c < r * w + w := by omega
    _ = (r + 1) * w := by ring
    _ ≤ h * w := Nat.mul_le_mul_right _ hr
    _ = w * h := Nat.mul_comm _ _

/-- `get_index` stays inside the cell vector of a length-invariant grid. -/
theorem get_index_lt (u : Universe) {row col : Nat}
    (hlen : u.cells.length = u.width * u.height)
    (hr : row < u.height) (hc : col < u.width) :
    u.get_index row col < u.cells.length := by
  rw [hlen]; exact index_lt_of_lt hr hc

/-- The row recovered from a row-major index. -/
theorem get_index_div (u : Universe) {col : Nat} (row : Nat)
    (hc : col < u.width) : u.get_index row col / u.width = row := by
  have hw : 0 < u.width := by omega
  unfold Universe.get_index
  rw [Nat.mul_comm, Nat.mul_add_div hw, Nat.div_eq_of_lt hc, Nat.add_zero]

/-- The column recovered from a row-major index. -/
theorem get_index_mod (u : Universe) {col : Nat} (row : Nat)
    (hc : col < u.width) : u.get_index row col % u.width = col := by
  unfold Universe.get_index
  rw [Nat.mul_comm, Nat.mul_add_mod, Nat.mod_eq_of_lt hc]

/-! ### The coordinate enumeration -/

/-- Membership in the row-major coordinate enumeration. -/
theorem mem_gridCoords {height width : Nat} {p : Nat × Nat} :
    p ∈ gridCoords height width ↔ p.1 < height ∧ p.2 < width := by
  obtain ⟨r, c⟩ := p
  simp only [gridCoords, List.mem_flatMap, List.mem_map, List.mem_range]
  constructor
  · rintro ⟨a, ha, b, hb, h⟩
    obtain ⟨h1, h2⟩ := Prod.mk.injEq .. ▸ h
    cases h
    exact ⟨ha, hb⟩
  · rintro ⟨h1, h2⟩
    exact ⟨r, h1, c, h2, rfl⟩

/-- `gridCoords` grows by one final row at a time. -/
theorem gridCoords_succ (h width : Nat) :
    gridCoords (h + 1) width =
      gridCoords h width ++ (List.range width).map (fun col => (h, col)) := by
  unfold gridCoords
  rw [List.range_succ, List.flatMap_append]
  simp

/-- Mapping the row-major index over `gridCoords` gives `range (h * w)`. -/
theorem gridCoords_map_index (height width : Nat) :
    (gridCoords height width).map (fun p => p.1 * width + p.2) =
      List.range (height * width) := by
  induction height with
  | zero => simp [gridCoords]
  | succ h ih =>
    rw [gridCoords_succ, List.map_append, ih, List.map_map,
      show (h + 1) * width = h * width + width by ring, List.range_add]
    simp [Function.comp]

/-- The row-major indices of `gridCoords` are pairwise distinct. -/
theorem gridCoords_index_nodup (height width : Nat) :
    ((gridCoords height width).map (fun p => p.1 * width + p.2)).Nodup := by
  rw [gridCoords_map_index]; exact List.nodup_range _

/-- A non-skipped offset of an in-range coordinate reads in range. -/
theorem neighborIndex_lt (u : Universe) {row col : Nat} {d : Int × Int}
    (hd : d ∈ neighborOffsets)
    (hr : row < u.height) (hc : col < u.width)
    (hskip : skipOffset u row col d.1 d.2 = false) :
    neighborIndex u row col d.1 d.2 < u.width * u.height := by
  fin_cases hd <;>
    simp [skipOffset, neighborIndex] at hskip ⊢ <;>
    exact index_lt_of_lt (by omega) (by omega)

/-- Each loop iteration of `live_neighbors` succeeds and adds its
contribution. -/
theorem neighborStep_eq (u : Universe) {row col : Nat}
    (hlen : u.cells.length = u.width * u.height)
    (hr : row < u.height) (hc : col < u.width)
    {d : Int × Int} (hd : d ∈ neighborOffsets) (count : Nat) :
    neighborStep u row col count d =
      some (count + neighborContrib u row col d) := by
  unfold neighborStep neighborContrib
  cases hskip : skipOffset u row col d.1 d.2 with
  | true => simp
  | false =>
    have hidx : neighborIndex u row col d.1 d.2 < u.cells.length := by
      rw [hlen]; exact neighborIndex_lt u hd hr hc hskip
    simp [List.getElem?_eq_getElem hidx, List.getD_eq_getElem _ _ hidx]

/-- `live_neighbors` succeeds on in-range coordinates of a length-invariant
grid and returns its pure closed form. -/
theorem live_neighbors_eq (u : Universe) {row col : Nat}
    (hlen : u.cells.length = u.width * u.height)
    (hr : row < u.height) (hc : col < u.width) :
    u.live_neighbors row col = some (liveNeighborsCount u row col) := by
  unfold Universe.live_neighbors liveNeighborsCount
  rw [foldlM_eq_some_foldl (neighborStep u row col)
    (fun count d => count + neighborContrib u row col d) (fun _ => True)
    neighborOffsets (fun b a ha _ => neighborStep_eq u hlen hr hc ha b)
    (fun _ _ _ _ => trivial) 0 trivial]
  rw [foldl_add_eq_sum, Nat.zero_add]

/-- Each `tick` loop iteration succeeds and acts like `pureStep`. -/
theorem tickStep_eq (u : Universe)
    (hlen : u.cells.length = u.width * u.height) {rc : Nat × Nat}
    (hr : rc.1 < u.height) (hc : rc.2 < u.width)
    {st : List Cell × Bool} (hst : st.1.length = u.cells.length) :
    tickStep u st rc = some (pureStep u st rc) := by
  have hidx : u.get_index rc.1 rc.2 < u.cells.length := get_index_lt u hlen hr hc
  have hidx2 : u.get_index rc.1 rc.2 < st.1.length := by rw [hst]; exact hidx
  unfold tickStep pureStep newCellAt
  simp only [List.getD_eq_getElem _ _ hidx, List.getD_eq_getElem _ _ hidx2]
  simp [List.getElem?_eq_getElem hidx, List.getElem?_eq_getElem hidx2,
    live_neighbors_eq u hlen hr hc]

/-- On a length-invariant grid `tick` succeeds and returns the pure fold. -/
theorem tick_eq (u : Universe) (hlen : u.cells.length = u.width * u.height) :
    u.tick = some { u with cells := (tickFold u).1, dirty := (tickFold u).2 } := by
  unfold Universe.tick tickFold
  rw [foldlM_eq_some_foldl (tickStep u) (pureStep u)
    (fun st => st.1.length = u.cells.length) (gridCoords u.height u.width)
    (fun st rc hrc hst =>
      tickStep_eq u hlen (mem_gridCoords.mp hrc).1 (mem_gridCoords.mp hrc).2 hst)
    (fun st rc _ hst => by simp [pureStep, List.length_set, hst])
    (u.cells, false) rfl]
  rfl

/-! ### Properties of the pure fold -/

/-- The fold preserves the length of the successor vector. -/
theorem tickFoldAux_length (u : Universe) (L : List (Nat × Nat)) :
    ∀ st : List Cell × Bool,
      ((L.foldl (pureStep u) st).1).length = st.1.length := by
  induction L with
  | nil => intro st; rfl
  | cons q L ih =>
    intro st
    rw [List.foldl_cons, ih]
    simp [pureStep]

/-- An index written by none of the processed coordinates is unchanged. -/
theorem tickFoldAux_untouched (u : Universe) (L : List (Nat × Nat)) :
    ∀ (st : List Cell × Bool) (j : Nat) (d : Cell),
      (∀ p ∈ L, u.get_index p.1 p.2 ≠ j) →
      ((L.foldl (pureStep u) st).1).getD j d = st.1.getD j d := by
  induction L with
  | nil => intro st j d _; rfl
  | cons q L ih =>
    intro st j d hj
    rw [List.foldl_cons, ih _ _ _ (fun p hp => hj p (List.mem_cons_of_mem _ hp))]
    exact getD_set_ne _ (hj q (List.mem_cons_self q L)) _ _

/-- When the processed coordinates have pairwise distinct indices, the fold
leaves the successor value of each coordinate in place. -/
theorem tickFoldAux_get (u : Universe) (L : List (Nat × Nat)) :
    ∀ st : List Cell × Bool,
      ((L.map (fun p => u.get_index p.1 p.2)).Nodup) →
      (∀ p ∈ L, u.get_index p.1 p.2 < st.1.length) →
      ∀ p ∈ L, ((L.foldl (pureStep u) st).1).getD (u.get_index p.1 p.2) Cell.Dead
        = newCellAt u p.1 p.2 := by
  induction L with
  | nil => intro st _ _ p hp; cases hp
  | cons q L ih =>
    intro st hnodup hlt p hp
    rw [List.map_cons, List.nodup_cons] at hnodup
    rw [List.foldl_cons]
    rcases List.mem_cons.mp hp with hq | hp'
    · subst hq
      have hnotin : ∀ r ∈ L, u.get_index r.1 r.2 ≠ u.get_index p.1 p.2 := by
        intro r hr heq
        exact hnodup.1 (heq ▸ List.mem_map_of_mem _ hr)
      rw [tickFoldAux_untouched u L _ _ _ hnotin]
      exact getD_set_self _ (hlt p hp) _ _
    · refine ih _ hnodup.2 ?_ p hp'
      intro r hr
      have : (pureStep u st q).1.length = st.1.length := by simp [pureStep]
      rw [this]
      exact hlt r (List.mem_cons_of_mem _ hr)

/-- When the processed coordinates have pairwise distinct indices and the
accumulator still agrees with the pre-advance vector on them, the final
dirty flag records whether any processed cell changes. -/
theorem tickFoldAux_dirty (u : Universe) (L : List (Nat × Nat)) :
    ∀ st : List Cell × Bool,
      ((L.map (fun p => u.get_index p.1 p.2)).Nodup) →
      (∀ p ∈ L, st.1.getD (u.get_index p.1 p.2) Cell.Dead =
        u.cells.getD (u.get_index p.1 p.2) Cell.Dead) →
      (L.foldl (pureStep u) st).2 =
        (st.2 || L.any (fun p => decide (u.cells.getD (u.get_index p.1 p.2)
          Cell.Dead ≠ newCellAt u p.1 p.2))) := by
  induction L with
  | nil => intro st _ _; simp
  | cons q L ih =>
    intro st hnodup hagree
    rw [List.map_cons, List.nodup_cons] at hnodup
    have hagree' : ∀ p ∈ L, (pureStep u st q).1.getD (u.get_index p.1 p.2)
        Cell.Dead = u.cells.getD (u.get_index p.1 p.2) Cell.Dead := by
      intro p hp
      have hne : u.get_index q.1 q.2 ≠ u.get_index p.1 p.2 := by
        intro heq
        exact hnodup.1 (heq ▸ List.mem_map_of_mem _ hp)
      calc (pureStep u st q).1.getD (u.get_index p.1 p.2) Cell.Dead
          = st.1.getD (u.get_index p.1 p.2) Cell.Dead :=
            getD_set_ne _ hne _ _
        _ = u.cells.getD (u.get_index p.1 p.2) Cell.Dead :=
            hagree p (List.mem_cons_of_mem _ hp)
    rw [List.foldl_cons, ih _ hnodup.2 hagree']
    have hq := hagree q (List.mem_cons_self q L)
    rw [List.getD_eq_getElem?_getD, List.getD_eq_getElem?_getD] at hq
    simp [pureStep, hq, List.any_cons, Bool.or_assoc,
      List.getD_eq_getElem?_getD]

/-- Every in-range flat index comes from an in-range coordinate. -/
theorem index_surj (u : Universe) {i : Nat} (hw : 0 < u.width)
    (hi : i < u.width * u.height) :
    i / u.width < u.height ∧ i % u.width < u.width ∧
      u.get_index (i / u.width) (i % u.width) = i := by
  refine ⟨?_, Nat.mod_lt _ hw, ?_⟩
  · exact (Nat.div_lt_iff_lt_mul hw).mpr (by rw [Nat.mul_comm u.width] at hi; exact hi)
  · unfold Universe.get_index
    rw [Nat.mul_comm]
    exact Nat.div_add_mod i u.width

/-- The distinct-index hypothesis holds for the full coordinate grid. -/
theorem gridCoords_get_index_nodup (u : Universe) :
    ((gridCoords u.height u.width).map
      (fun p => u.get_index p.1 p.2)).Nodup := by
  have h := gridCoords_index_nodup u.height u.width
  simpa [Universe.get_index] using h

/-- Master characterization of `tick` on a length-invariant grid: it
succeeds, keeps the dimensions and the vector length, writes the
Game-of-Life successor of every coordinate (computed from the pre-advance
vector), and reports in `dirty` whether any coordinate changed. -/
theorem tick_spec (u : Universe) (hlen : u.cells.length = u.width * u.height) :
    ∃ u', u.tick = some u' ∧ u'.width = u.width ∧ u'.height = u.height ∧
      u'.cells.length = u.cells.length ∧
      (∀ row col, row < u.height → col < u.width →
        u'.cells.getD (u.get_index row col) Cell.Dead = newCellAt u row col) ∧
      u'.dirty = (gridCoords u.height u.width).any
        (fun p => decide (u.cells.getD (u.get_index p.1 p.2) Cell.Dead ≠
          newCellAt u p.1 p.2)) := by
  refine ⟨_, tick_eq u hlen, rfl, rfl, ?_, ?_, ?_⟩
  · exact tickFoldAux_length u _ _
  · intro row col hr hc
    exact tickFoldAux_get u (gridCoords u.height u.width) (u.cells, false)
      (gridCoords_get_index_nodup u)
      (fun p hp => get_index_lt u hlen (mem_gridCoords.mp hp).1
        (mem_gridCoords.mp hp).2)
      (row, col) (mem_gridCoords.mpr ⟨hr, hc⟩)
  · have h := tickFoldAux_dirty u (gridCoords u.height u.width)
      (u.cells, false) (gridCoords_get_index_nodup u) (fun p _ => rfl)
    simpa using h

/-! ### The transition table and the neighbor-count specification -/

/-- The `match` of `tick` agrees with the transition table of the design
document at every cell state and neighbor count. -/
theorem nextCellState_eq_golSpecRule (c : Cell) (n : Nat) :
    nextCellState c n = golSpecRule c n := by
  cases c <;> simp [nextCellState, golSpecRule] <;> split_ifs <;>
    first | rfl | omega

/-- Offset by offset, the loop of `live_neighbors` contributes exactly what
the in-range-offset specification prescribes. -/
theorem neighborContrib_eq_spec (u : Universe) {row col : Nat}
    (hr : row < u.height) (hc : col < u.width)
    {d : Int × Int} (hd : d ∈ neighborOffsets) :
    neighborContrib u row col d =
      if d ≠ ((0 : Int), (0 : Int)) ∧
         0 ≤ (row : Int) + d.1 ∧ (row : Int) + d.1 < (u.height : Int) ∧
         0 ≤ (col : Int) + d.2 ∧ (col : Int) + d.2 < (u.width : Int) then
        (u.cells.getD (((row : Int) + d.1).toNat * u.width +
          ((col : Int) + d.2).toNat) Cell.Dead).toNat
      else 0 := by
  fin_cases hd <;>
    simp [neighborContrib, skipOffset, neighborIndex] <;>
    split_ifs <;> first | rfl | omega

/-- The pure neighbor count equals the specification count. -/
theorem liveNeighborsCount_eq_spec (u : Universe) {row col : Nat}
    (hr : row < u.height) (hc : col < u.width) :
    liveNeighborsCount u row col = specNeighborCount u row col := by
  unfold liveNeighborsCount specNeighborCount
  congr 1
  exact List.map_congr_left (fun d hd => neighborContrib_eq_spec u hr hc hd)

/-! ### Bounds on the neighbor count -/

/-- A cell value is at most one. -/
theorem Cell.toNat_le_one (c : Cell) : c.toNat ≤ 1 := by
  cases c <;> simp [Cell.toNat]

/-- Each offset contributes at most one. -/
theorem neighborContrib_le_one (u : Universe) (row col : Nat)
    (d : Int × Int) : neighborContrib u row col d ≤ 1 := by
  unfold neighborContrib
  split_ifs
  · omega
  · exact Cell.toNat_le_one _

/-- The center offset contributes nothing. -/
theorem neighborContrib_center (u : Universe) (row col : Nat) :
    neighborContrib u row col (0, 0) = 0 := by
  simp [neighborContrib, skipOffset]

/-- On the top row, upward offsets contribute nothing. -/
theorem neighborContrib_top (u : Universe) {row : Nat} (col : Nat)
    (h : row = 0) (dc : Int) : neighborContrib u row col (-1, dc) = 0 := by
  simp [neighborContrib, skipOffset, h]

/-- On the bottom row, downward offsets contribute nothing. -/
theorem neighborContrib_bottom (u : Universe) {row : Nat} (col : Nat)
    (h : row = u.height - 1) (dc : Int) :
    neighborContrib u row col (1, dc) = 0 := by
  simp [neighborContrib, skipOffset, h]

/-- On the left column, leftward offsets contribute nothing. -/
theorem neighborContrib_left (u : Universe) (row : Nat) {col : Nat}
    (h : col = 0) (dr : Int) : neighborContrib u row col (dr, -1) = 0 := by
  simp [neighborContrib, skipOffset, h]

/-- On the right column, rightward offsets contribute nothing. -/
theorem neighborContrib_right (u : Universe) (row : Nat) {col : Nat}
    (h : col = u.width - 1) (dr : Int) :
    neighborContrib u row col (dr, 1) = 0 := by
  simp [neighborContrib, skipOffset, h]

/-- The neighbor count never exceeds eight. -/
theorem liveNeighborsCount_le_eight (u : Universe) (row col : Nat) :
    liveNeighborsCount u row col ≤ 8 := by
  have hle := neighborContrib_le_one u row col
  have hc0 := neighborContrib_center u row col
  simp only [liveNeighborsCount, neighborOffsets, List.map_cons, List.map_nil,
    List.sum_cons, List.sum_nil]
  have h1 := hle (-1, -1); have h2 := hle (-1, 0); have h3 := hle (-1, 1)
  have h4 := hle (0, -1); have h5 := hle (0, 1)
  have h6 := hle (1, -1); have h7 := hle (1, 0); have h8 := hle (1, 1)
  omega

/-- A corner cell sees at most three neighbors. -/
theorem liveNeighborsCount_corner (u : Universe) {row col : Nat}
    (hrow : row = 0 ∨ row = u.height - 1)
    (hcol : col = 0 ∨ col = u.width - 1) :
    liveNeighborsCount u row col ≤ 3 := by
  have hle := neighborContrib_le_one u row col
  have hc0 := neighborContrib_center u row col
  simp only [liveNeighborsCount, neighborOffsets, List.map_cons, List.map_nil,
    List.sum_cons, List.sum_nil]
  rcases hrow with hr0 | hr1 <;> rcases hcol with hcL | hcR
  · have z1 := neighborContrib_top u col hr0 (-1)
    have z2 := neighborContrib_top u col hr0 0
    have z3 := neighborContrib_top u col hr0 1
    have z4 := neighborContrib_left u row hcL 0
    have z5 := neighborContrib_left u row hcL 1
    have h5 := hle (0, 1); have h7 := hle (1, 0); have h8 := hle (1, 1)
    omega
  · have z1 := neighborContrib_top u col hr0 (-1)
    have z2 := neighborContrib_top u col hr0 0
    have z3 := neighborContrib_top u col hr0 1
    have z4 := neighborContrib_right u row hcR 0
    have z5 := neighborContrib_right u row hcR 1
    have h4 := hle (0, -1); have h6 := hle (1, -1); have h7 := hle (1, 0)
    omega
  · have z1 := neighborContrib_bottom u col hr1 (-1)
    have z2 := neighborContrib_bottom u col hr1 0
    have z3 := neighborContrib_bottom u col hr1 1
    have z4 := neighborContrib_left u row hcL (-1)
    have z5 := neighborContrib_left u row hcL 0
    have h2 := hle (-1, 0); have h3 := hle (-1, 1); have h5 := hle (0, 1)
    omega
  · have z1 := neighborContrib_bottom u col hr1 (-1)
    have z2 := neighborContrib_bottom u col hr1 0
    have z3 := neighborContrib_bottom u col hr1 1
    have z4 := neighborContrib_right u row hcR (-1)
    have z5 := neighborContrib_right u row hcR 0
    have h1 := hle (-1, -1); have h2 := hle (-1, 0); have h4 := hle (0, -1)
    omega

/-- A cell on any boundary side sees at most five neighbors. -/
theorem liveNeighborsCount_edge (u : Universe) {row col : Nat}
    (hedge : row = 0 ∨ row = u.height - 1 ∨ col = 0 ∨ col = u.width - 1) :
    liveNeighborsCount u row col ≤ 5 := by
  have hle := neighborContrib_le_one u row col
  have hc0 := neighborContrib_center u row col
  simp only [liveNeighborsCount, neighborOffsets, List.map_cons, List.map_nil,
    List.sum_cons, List.sum_nil]
  have h1 := hle (-1, -1); have h2 := hle (-1, 0); have h3 := hle (-1, 1)
  have h4 := hle (0, -1); have h5 := hle (0, 1)
  have h6 := hle (1, -1); have h7 := hle (1, 0); have h8 := hle (1, 1)
  rcases hedge with h | h | h | h
  · have z1 := neighborContrib_top u col h (-1)
    have z2 := neighborContrib_top u col h 0
    have z3 := neighborContrib_top u col h 1
    omega
  · have z1 := neighborContrib_bottom u col h (-1)
    have z2 := neighborContrib_bottom u col h 0
    have z3 := neighborContrib_bottom u col h 1
    omega
  · have z1 := neighborContrib_left u row h (-1)
    have z2 := neighborContrib_left u row h 0
    have z3 := neighborContrib_left u row h 1
    omega
  · have z1 := neighborContrib_right u row h (-1)
    have z2 := neighborContrib_right u row h 0
    have z3 := neighborContrib_right u row h 1
    omega

/-! ### The claims -/

/-- C1: on a well-formed grid, the cell at any in-range coordinate after one
advance equals the Game-of-Life rule of the design document applied to the
pre-advance cell state and the neighbor count taken from the pre-advance
cell sequence. -/
theorem claim1_advance_follows_rule (u : Universe) (hwf : u.WellFormed)
    (row col : Nat) (hr : row < u.height) (hc : col < u.width) :
    ∃ (u' : Universe) (c : Cell) (n : Nat),
      u.tick = some u' ∧
      u.get_cell_state row col = some c ∧
      u.live_neighbors row col = some n ∧
      u'.get_cell_state row col = some (golSpecRule c n) := by
  obtain ⟨hlen, hw, hh⟩ := hwf
  obtain ⟨u', htick, hW, hH, hlen', hget, hdirty⟩ := tick_spec u hlen
  have hidx : u.get_index row col < u.cells.length := get_index_lt u hlen hr hc
  have hidx' : u.get_index row col < u'.cells.length := by
    rw [hlen']; exact hidx
  have hidxeq : u'.get_index row col = u.get_index row col := by
    unfold Universe.get_index; rw [hW]
  refine ⟨u', u.cells.getD (u.get_index row col) Cell.Dead,
    liveNeighborsCount u row col, htick, ?_,
    live_neighbors_eq u hlen hr hc, ?_⟩
  · unfold Universe.get_cell_state
    rw [List.getElem?_eq_getElem hidx, List.getD_eq_getElem _ _ hidx]
  · unfold Universe.get_cell_state
    rw [hidxeq, List.getElem?_eq_getElem hidx',
      ← List.getD_eq_getElem u'.cells Cell.Dead hidx', hget row col hr hc]
    unfold newCellAt
    rw [nextCellState_eq_golSpecRule]

/-- Witness for C1: the horizontal blinker at coordinate (0, 1). -/
theorem claim1_witness :
    blinkerH.WellFormed ∧ 0 < blinkerH.height ∧ 1 < blinkerH.width ∧
    (∃ (u' : Universe) (c : Cell) (n : Nat),
      blinkerH.tick = some u' ∧
      blinkerH.get_cell_state 0 1 = some c ∧
      blinkerH.live_neighbors 0 1 = some n ∧
      u'.get_cell_state 0 1 = some (golSpecRule c n)) :=
  ⟨⟨rfl, by decide, by decide⟩, by decide, by decide,
    claim1_advance_follows_rule blinkerH ⟨rfl, by decide, by decide⟩ 0 1
      (by decide) (by decide)⟩

/-- C2: on a well-formed grid, `live_neighbors` returns the sum of the
cell values of exactly those of the eight non-zero offsets whose target
coordinate lies inside the grid, out-of-range offsets contributing
nothing. -/
theorem claim2_neighbor_count_spec (u : Universe) (hwf : u.WellFormed)
    (row col : Nat) (hr : row < u.height) (hc : col < u.width) :
    u.live_neighbors row col = some (specNeighborCount u row col) := by
  rw [live_neighbors_eq u hwf.1 hr hc, liveNeighborsCount_eq_spec u hr hc]

/-- Witness for C2: on the 2-by-2 grid, the count at (0, 0) is exactly the
sum of the three other cells. -/
theorem claim2_witness :
    twoByTwo.WellFormed ∧ 0 < twoByTwo.height ∧ 0 < twoByTwo.width ∧
    twoByTwo.live_neighbors 0 0 = some (specNeighborCount twoByTwo 0 0) ∧
    specNeighborCount twoByTwo 0 0 =
      (twoByTwo.cells.getD 1 Cell.Dead).toNat +
      (twoByTwo.cells.getD 2 Cell.Dead).toNat +
      (twoByTwo.cells.getD 3 Cell.Dead).toNat :=
  ⟨⟨rfl, by decide, by decide⟩, by decide, by decide,
    claim2_neighbor_count_spec twoByTwo ⟨rfl, by decide, by decide⟩ 0 0
      (by decide) (by decide), by decide⟩

/-- C3: after one advance of a well-formed grid, the dirty flag is true
exactly when some cell value differs from its pre-advance value. -/
theorem claim3_changed_iff (u : Universe) (hwf : u.WellFormed) :
    ∃ u', u.tick = some u' ∧
      (u'.dirty = true ↔
        ∃ i < u.cells.length,
          u'.cells.getD i Cell.Dead ≠ u.cells.getD i Cell.Dead) := by
  obtain ⟨hlen, hw, hh⟩ := hwf
  obtain ⟨u', htick, hW, hH, hlen', hget, hdirty⟩ := tick_spec u hlen
  refine ⟨u', htick, ?_⟩
  rw [hdirty, List.any_eq_true]
  constructor
  · rintro ⟨p, hp, hpd⟩
    obtain ⟨hr, hc⟩ := mem_gridCoords.mp hp
    rw [decide_eq_true_eq] at hpd
    refine ⟨u.get_index p.1 p.2, get_index_lt u hlen hr hc, ?_⟩
    rw [hget p.1 p.2 hr hc]
    exact fun h => hpd h.symm
  · rintro ⟨i, hi, hne⟩
    have hi' : i < u.width * u.height := by rw [← hlen]; exact hi
    obtain ⟨hr, hc, hidx⟩ := index_surj u hw hi'
    refine ⟨(i / u.width, i % u.width), mem_gridCoords.mpr ⟨hr, hc⟩, ?_⟩
    rw [decide_eq_true_eq]
    show u.cells.getD (u.get_index (i / u.width) (i % u.width)) Cell.Dead ≠
      newCellAt u (i / u.width) (i % u.width)
    have h2 : u'.cells.getD (u.get_index (i / u.width) (i % u.width))
        Cell.Dead = newCellAt u (i / u.width) (i % u.width) :=
      hget _ _ hr hc
    rw [hidx] at h2
    rw [hidx]
    intro h
    exact hne (h2.trans h.symm)

/-- Witness for C3: the horizontal blinker. -/
theorem claim3_witness :
    blinkerH.WellFormed ∧
    (∃ u', blinkerH.tick = some u' ∧
      (u'.dirty = true ↔
        ∃ i < blinkerH.cells.length,
          u'.cells.getD i Cell.Dead ≠ blinkerH.cells.getD i Cell.Dead)) :=
  ⟨⟨rfl, by decide, by decide⟩,
    claim3_changed_iff blinkerH ⟨rfl, by decide, by decide⟩⟩

/-- C4: on a well-formed grid, `tick` never fails (every index it uses,
directly and through `live_neighbors`, is in bounds) and `get_cell_state`
never fails on in-range coordinates. -/
theorem claim4_no_failure (u : Universe) (hwf : u.WellFormed) :
    (u.tick).isSome = true ∧
    ∀ row col, row < u.height → col < u.width →
      (u.get_cell_state row col).isSome = true := by
  obtain ⟨hlen, hw, hh⟩ := hwf
  obtain ⟨u', htick, _⟩ := tick_spec u hlen
  refine ⟨by rw [htick]; rfl, ?_⟩
  intro row col hr hc
  unfold Universe.get_cell_state
  rw [List.getElem?_eq_getElem (get_index_lt u hlen hr hc)]
  rfl

/-- Witness for C4: the horizontal blinker. -/
theorem claim4_witness :
    blinkerH.WellFormed ∧
    ((blinkerH.tick).isSome = true ∧
      ∀ row col, row < blinkerH.height → col < blinkerH.width →
        (blinkerH.get_cell_state row col).isSome = true) :=
  ⟨⟨rfl, by decide, by decide⟩,
    claim4_no_failure blinkerH ⟨rfl, by decide, by decide⟩⟩

/-- C5: `new` always allocates `width * height` cells, and `tick` preserves
the length invariant `cells.length = width * height`. -/
theorem claim5_length_invariant :
    (∀ (width height : Nat) (rnd : Nat → Nat),
      (Universe.new width height rnd).cells.length = width * height) ∧
    ∀ u : Universe, u.cells.length = u.width * u.height →
      ∃ u', u.tick = some u' ∧
        u'.cells.length = u'.width * u'.height := by
  constructor
  · intro w h rnd; simp [Universe.new]
  · intro u hlen
    obtain ⟨u', htick, hW, hH, hlen', _⟩ := tick_spec u hlen
    exact ⟨u', htick, by rw [hlen', hlen, hW, hH]⟩

/-- Witness for C5: a 5-by-4 construction and the blinker advance. -/
theorem claim5_witness :
    (Universe.new 5 4 (fun i => i)).cells.length = 5 * 4 ∧
    blinkerH.cells.length = blinkerH.width * blinkerH.height ∧
    (∃ u', blinkerH.tick = some u' ∧
      u'.cells.length = u'.width * u'.height) :=
  ⟨claim5_length_invariant.1 5 4 (fun i => i), by decide,
    claim5_length_invariant.2 blinkerH (by decide)⟩

/-- C6: on a well-formed grid, `live_neighbors` returns a value in [0, 8];
a corner cell sees at most 3, a non-corner edge cell at most 5, an interior
cell at most 8 neighbors. -/
theorem claim6_neighbor_count_bounds (u : Universe) (hwf : u.WellFormed)
    (row col : Nat) (hr : row < u.height) (hc : col < u.width) :
    ∃ n, u.live_neighbors row col = some n ∧ n ≤ 8 ∧
      (((row = 0 ∨ row = u.height - 1) ∧ (col = 0 ∨ col = u.width - 1)) →
        n ≤ 3) ∧
      (((row = 0 ∨ row = u.height - 1 ∨ col = 0 ∨ col = u.width - 1) ∧
        ¬((row = 0 ∨ row = u.height - 1) ∧ (col = 0 ∨ col = u.width - 1))) →
        n ≤ 5) ∧
      (¬(row = 0 ∨ row = u.height - 1 ∨ col = 0 ∨ col = u.width - 1) →
        n ≤ 8) := by
  refine ⟨liveNeighborsCount u row col, live_neighbors_eq u hwf.1 hr hc,
    liveNeighborsCount_le_eight u row col, ?_, ?_, ?_⟩
  · rintro ⟨h1, h2⟩; exact liveNeighborsCount_corner u h1 h2
  · rintro ⟨h1, _⟩; exact liveNeighborsCount_edge u h1
  · intro _; exact liveNeighborsCount_le_eight u row col

/-- Witness for C6: the corner (0, 0) of the horizontal blinker. -/
theorem claim6_witness :
    blinkerH.WellFormed ∧ 0 < blinkerH.height ∧ 0 < blinkerH.width ∧
    (∃ n, blinkerH.live_neighbors 0 0 = some n ∧ n ≤ 8 ∧
      (((0 = 0 ∨ 0 = blinkerH.height - 1) ∧
        (0 = 0 ∨ 0 = blinkerH.width - 1)) → n ≤ 3) ∧
      (((0 = 0 ∨ 0 = blinkerH.height - 1 ∨ 0 = 0 ∨
          0 = blinkerH.width - 1) ∧
        ¬((0 = 0 ∨ 0 = blinkerH.height - 1) ∧
          (0 = 0 ∨ 0 = blinkerH.width - 1))) → n ≤ 5) ∧
      (¬(0 = 0 ∨ 0 = blinkerH.height - 1 ∨ 0 = 0 ∨
          0 = blinkerH.width - 1) → n ≤ 8)) :=
  ⟨⟨rfl, by decide, by decide⟩, by decide, by decide,
    claim6_neighbor_count_bounds blinkerH ⟨rfl, by decide, by decide⟩ 0 0
      (by decide) (by decide)⟩

/-- C7: `tick` is a pure function of width, height and cell sequence: two
well-formed grids agreeing on those three produce equal successor cell
sequences and equal dirty flags. -/
theorem claim7_deterministic (u1 u2 : Universe) (hwf1 : u1.WellFormed)
    (hwf2 : u2.WellFormed) (hw : u1.width = u2.width)
    (hh : u1.height = u2.height) (hc : u1.cells = u2.cells) :
    ∃ v1 v2, u1.tick = some v1 ∧ u2.tick = some v2 ∧
      v1.cells = v2.cells ∧ v1.dirty = v2.dirty := by
  obtain ⟨w1, h1, c1, d1⟩ := u1
  obtain ⟨w2, h2, c2, d2⟩ := u2
  simp only at hw hh hc
  subst hw hh hc
  exact ⟨_, _, tick_eq _ hwf1.1, tick_eq _ hwf2.1, rfl, rfl⟩

/-- Witness for C7: the blinker cell sequence under two dirty flags. -/
theorem claim7_witness :
    (⟨3, 3, blinkerH.cells, true⟩ : Universe).WellFormed ∧
    (⟨3, 3, blinkerH.cells, false⟩ : Universe).WellFormed ∧
    (∃ v1 v2, (⟨3, 3, blinkerH.cells, true⟩ : Universe).tick = some v1 ∧
      (⟨3, 3, blinkerH.cells, false⟩ : Universe).tick = some v2 ∧
      v1.cells = v2.cells ∧ v1.dirty = v2.dirty) :=
  ⟨⟨rfl, by decide, by decide⟩, ⟨rfl, by decide, by decide⟩,
    claim7_deterministic _ _ ⟨rfl, by decide, by decide⟩
      ⟨rfl, by decide, by decide⟩ rfl rfl rfl⟩

/-- C8: one advance of the 3-by-3 grid with its middle row alive yields
exactly the vertical blinker phase, whatever the incoming dirty flag. -/
theorem claim8_blinker (d : Bool) :
    (Universe.mk 3 3 [Cell.Dead, Cell.Dead, Cell.Dead, Cell.Alive,
      Cell.Alive, Cell.Alive, Cell.Dead, Cell.Dead, Cell.Dead] d).tick =
    some (Universe.mk 3 3 [Cell.Dead, Cell.Alive, Cell.Dead, Cell.Dead,
      Cell.Alive, Cell.Dead, Cell.Dead, Cell.Alive, Cell.Dead] true) := by
  cases d <;> decide

/-- C10: on a degenerate grid (zero width or height, empty cell sequence)
`tick` succeeds, keeps the dimensions and the empty sequence, and reports
no change. -/
theorem claim10_degenerate (u : Universe)
    (hdeg : u.width = 0 ∨ u.height = 0) (hcells : u.cells = []) :
    ∃ u', u.tick = some u' ∧ u'.cells = [] ∧ u'.width = u.width ∧
      u'.height = u.height ∧ u'.dirty = false := by
  have hg : gridCoords u.height u.width = [] := by
    rcases hdeg with h | h <;> simp [gridCoords, h]
  refine ⟨{ u with cells := u.cells, dirty := false }, ?_, by simpa, rfl, rfl,
    rfl⟩
  unfold Universe.tick
  rw [hg, List.foldlM_nil]
  rfl

/-- Witness for C10: a 0-by-5 grid. -/
theorem claim10_witness :
    ((⟨0, 5, [], true⟩ : Universe).width = 0 ∨
      (⟨0, 5, [], true⟩ : Universe).height = 0) ∧
    (⟨0, 5, [], true⟩ : Universe).cells = [] ∧
    (∃ u', (⟨0, 5, [], true⟩ : Universe).tick = some u' ∧ u'.cells = [] ∧
      u'.width = (⟨0, 5, [], true⟩ : Universe).width ∧
      u'.height = (⟨0, 5, [], true⟩ : Universe).height ∧ u'.dirty = false) :=
  ⟨Or.inl rfl, rfl, claim10_degenerate _ (Or.inl rfl) rfl⟩

/-! ### The 2-by-2 block still life -/

/-- The block indicator factors through its row and column bands. -/
theorem blockInd_eq_mul (r0 c0 : Nat) (x y : Int) :
    blockInd r0 c0 x y = rowBand r0 x * rowBand c0 y := by
  unfold blockInd rowBand
  split_ifs <;> first | rfl | omega

/-- A band indicator is at most one. -/
theorem rowBand_le_one (a : Nat) (x : Int) : rowBand a x ≤ 1 := by
  unfold rowBand
  split_ifs <;> omega

/-- At most two of three consecutive coordinates lie in a two-wide band. -/
theorem rowBand_triple_le_two (a : Nat) (x : Int) :
    rowBand a (x + -1) + rowBand a x + rowBand a (x + 1) ≤ 2 := by
  unfold rowBand
  split_ifs <;> omega

/-- A coordinate inside a two-wide band has exactly one of its two
neighbors inside the band. -/
theorem rowBand_center_one (a : Nat) {x : Int} (h : rowBand a x = 1) :
    rowBand a (x + -1) + rowBand a (x + 1) = 1 := by
  unfold rowBand at h ⊢
  split_ifs at h ⊢ <;> omega

/-- On a grid whose cells follow the interior-block pattern, each
non-center offset contributes the block indicator of its target, whether
or not the offset stays in range. -/
theorem neighborContrib_block (u : Universe) (r0 c0 : Nat)
    (h1 : 1 ≤ r0) (h2 : r0 + 3 ≤ u.height)
    (h3 : 1 ≤ c0) (h4 : c0 + 3 ≤ u.width)
    (hval : ∀ tr tc : Nat, tr < u.height → tc < u.width →
      (u.cells.getD (tr * u.width + tc) Cell.Dead).toNat =
        blockInd r0 c0 (tr : Int) (tc : Int))
    {row col : Nat} (hr : row < u.height) (hc : col < u.width)
    {d : Int × Int} (hd : d ∈ neighborOffsets) (hd0 : d ≠ (0, 0)) :
    neighborContrib u row col d =
      blockInd r0 c0 ((row : Int) + d.1) ((col : Int) + d.2) := by
  fin_cases hd <;>
  first
  | exact absurd rfl hd0
  | (simp only [neighborContrib, neighborIndex]
     split_ifs with hskip
     · simp [skipOffset] at hskip
       unfold blockInd
       rw [if_neg (by omega)]
     · simp [skipOffset] at hskip
       rw [hval]
       all_goals first
         | omega
         | (unfold blockInd
            split_ifs <;> first | rfl | omega))

/-- On a grid whose cells follow the interior-block pattern, the neighbor
count sums the block indicators of the eight surrounding targets. -/
theorem liveNeighborsCount_block (u : Universe) (r0 c0 : Nat)
    (h1 : 1 ≤ r0) (h2 : r0 + 3 ≤ u.height)
    (h3 : 1 ≤ c0) (h4 : c0 + 3 ≤ u.width)
    (hval : ∀ tr tc : Nat, tr < u.height → tc < u.width →
      (u.cells.getD (tr * u.width + tc) Cell.Dead).toNat =
        blockInd r0 c0 (tr : Int) (tc : Int))
    {row col : Nat} (hr : row < u.height) (hc : col < u.width) :
    liveNeighborsCount u row col =
      blockInd r0 c0 ((row : Int) + -1) ((col : Int) + -1) +
      blockInd r0 c0 ((row : Int) + -1) (col : Int) +
      blockInd r0 c0 ((row : Int) + -1) ((col : Int) + 1) +
      blockInd r0 c0 (row : Int) ((col : Int) + -1) +
      blockInd r0 c0 (row : Int) ((col : Int) + 1) +
      blockInd r0 c0 ((row : Int) + 1) ((col : Int) + -1) +
      blockInd r0 c0 ((row : Int) + 1) (col : Int) +
      blockInd r0 c0 ((row : Int) + 1) ((col : Int) + 1) := by
  have g := fun (d : Int × Int) (hd : d ∈ neighborOffsets) (hd0 : d ≠ (0, 0)) =>
    neighborContrib_block u r0 c0 h1 h2 h3 h4 hval hr hc hd hd0
  simp only [liveNeighborsCount, neighborOffsets, List.map_cons, List.map_nil,
    List.sum_cons, List.sum_nil]
  rw [g (-1, -1) (by decide) (by decide), g (-1, 0) (by decide) (by decide),
    g (-1, 1) (by decide) (by decide), g (0, -1) (by decide) (by decide),
    g (0, 1) (by decide) (by decide), g (1, -1) (by decide) (by decide),
    g (1, 0) (by decide) (by decide), g (1, 1) (by decide) (by decide),
    neighborContrib_center]
  dsimp only
  simp only [Int.add_zero, Int.zero_add]
  omega

/-- The still-life identity of the 2-by-2 block: the transition rule maps
each cell of the block pattern to itself. -/
theorem block_still_arith (r0 c0 row col : Nat) :
    nextCellState
      (if r0 ≤ row ∧ row ≤ r0 + 1 ∧ c0 ≤ col ∧ col ≤ c0 + 1 then Cell.Alive
       else Cell.Dead)
      (blockInd r0 c0 ((row : Int) + -1) ((col : Int) + -1) +
       blockInd r0 c0 ((row : Int) + -1) (col : Int) +
       blockInd r0 c0 ((row : Int) + -1) ((col : Int) + 1) +
       blockInd r0 c0 (row : Int) ((col : Int) + -1) +
       blockInd r0 c0 (row : Int) ((col : Int) + 1) +
       blockInd r0 c0 ((row : Int) + 1) ((col : Int) + -1) +
       blockInd r0 c0 ((row : Int) + 1) (col : Int) +
       blockInd r0 c0 ((row : Int) + 1) ((col : Int) + 1)) =
    (if r0 ≤ row ∧ row ≤ r0 + 1 ∧ c0 ≤ col ∧ col ≤ c0 + 1 then Cell.Alive
     else Cell.Dead) := by
  simp only [blockInd_eq_mul]
  have ha1 := rowBand_le_one r0 ((row : Int) + -1)
  have ha3 := rowBand_le_one r0 ((row : Int) + 1)
  have hb1 := rowBand_le_one c0 ((col : Int) + -1)
  have hb3 := rowBand_le_one c0 ((col : Int) + 1)
  split_ifs with hP
  · have ha2 : rowBand r0 (row : Int) = 1 := by
      unfold rowBand; rw [if_pos (by omega)]
    have hb2 : rowBand c0 (col : Int) = 1 := by
      unfold rowBand; rw [if_pos (by omega)]
    have ha13 := rowBand_center_one r0 ha2
    have hb13 := rowBand_center_one c0 hb2
    rcases Nat.le_one_iff_eq_zero_or_eq_one.mp ha1 with e1 | e1 <;>
      rcases Nat.le_one_iff_eq_zero_or_eq_one.mp ha3 with e3 | e3 <;>
      rcases Nat.le_one_iff_eq_zero_or_eq_one.mp hb1 with f1 | f1 <;>
      rcases Nat.le_one_iff_eq_zero_or_eq_one.mp hb3 with f3 | f3 <;>
      simp only [e1, e3, f1, f3, ha2, hb2] at ha13 hb13 ⊢ <;>
      first | decide | omega
  · have ha2 := rowBand_le_one r0 (row : Int)
    have hb2 := rowBand_le_one c0 (col : Int)
    have hA := rowBand_triple_le_two r0 (row : Int)
    have hB := rowBand_triple_le_two c0 (col : Int)
    have hzero : rowBand r0 (row : Int) = 0 ∨ rowBand c0 (col : Int) = 0 := by
      by_cases hrow : (r0 : Int) ≤ (row : Int) ∧ (row : Int) ≤ (r0 : Int) + 1
      · right; unfold rowBand; rw [if_neg (by omega)]
      · left; unfold rowBand; rw [if_neg hrow]
    rcases hzero with h0 | h0 <;>
      rcases Nat.le_one_iff_eq_zero_or_eq_one.mp ha1 with e1 | e1 <;>
      rcases Nat.le_one_iff_eq_zero_or_eq_one.mp ha2 with e2 | e2 <;>
      rcases Nat.le_one_iff_eq_zero_or_eq_one.mp ha3 with e3 | e3 <;>
      rcases Nat.le_one_iff_eq_zero_or_eq_one.mp hb1 with f1 | f1 <;>
      rcases Nat.le_one_iff_eq_zero_or_eq_one.mp hb2 with f2 | f2 <;>
      rcases Nat.le_one_iff_eq_zero_or_eq_one.mp hb3 with f3 | f3 <;>
      simp only [e1, e2, e3, f1, f2, f3] at hA hB h0 ⊢ <;>
      first | decide | omega

/-- C9: a well-formed grid holding a 2-by-2 block of alive cells strictly
inside the boundary, all other cells dead, is unchanged by one advance and
reports no change. -/
theorem claim9_block_still_life (u : Universe) (r0 c0 : Nat)
    (hwf : u.WellFormed)
    (h1 : 1 ≤ r0) (h2 : r0 + 3 ≤ u.height)
    (h3 : 1 ≤ c0) (h4 : c0 + 3 ≤ u.width)
    (hpat : ∀ r c, r < u.height → c < u.width →
      u.cells.getD (u.get_index r c) Cell.Dead =
        if r0 ≤ r ∧ r ≤ r0 + 1 ∧ c0 ≤ c ∧ c ≤ c0 + 1 then Cell.Alive
        else Cell.Dead) :
    ∃ u', u.tick = some u' ∧ u'.cells = u.cells ∧ u'.dirty = false := by
  obtain ⟨hlen, hw, hh⟩ := hwf
  have hval : ∀ tr tc : Nat, tr < u.height → tc < u.width →
      (u.cells.getD (tr * u.width + tc) Cell.Dead).toNat =
        blockInd r0 c0 (tr : Int) (tc : Int) := by
    intro tr tc htr htc
    have h := hpat tr tc htr htc
    unfold Universe.get_index at h
    rw [h]
    unfold blockInd
    split_ifs <;> first | rfl | omega
  have hcell : ∀ r c, r < u.height → c < u.width →
      newCellAt u r c = u.cells.getD (u.get_index r c) Cell.Dead := by
    intro r c hr hc
    unfold newCellAt
    rw [liveNeighborsCount_block u r0 c0 h1 h2 h3 h4 hval hr hc,
      hpat r c hr hc]
    exact block_still_arith r0 c0 r c
  obtain ⟨u', htick, hW, hH, hlen', hget, hdirty⟩ := tick_spec u hlen
  refine ⟨u', htick, ?_, ?_⟩
  · apply List.ext_getElem (by rw [hlen'])
    intro i hi1 hi2
    have hi : i < u.width * u.height := by rw [← hlen]; exact hi2
    obtain ⟨hr, hc, hidx⟩ := index_surj u hw hi
    have g1 : u'.cells.getD (u.get_index (i / u.width) (i % u.width))
        Cell.Dead = newCellAt u (i / u.width) (i % u.width) := hget _ _ hr hc
    have g2 := hcell (i / u.width) (i % u.width) hr hc
    rw [hidx] at g1 g2
    rw [← List.getD_eq_getElem u'.cells Cell.Dead hi1,
      ← List.getD_eq_getElem u.cells Cell.Dead hi2, g1]
    exact g2
  · rw [hdirty]
    refine List.any_eq_false.mpr ?_
    intro p hp
    obtain ⟨hr, hc⟩ := mem_gridCoords.mp hp
    show ¬(decide (u.cells.getD (u.get_index p.1 p.2) Cell.Dead ≠
      newCellAt u p.1 p.2) = true)
    rw [decide_eq_true_eq]
    intro hne
    exact hne (hcell p.1 p.2 hr hc).symm

/-- Witness for C9: the 4-by-4 grid with the block at rows and columns
1 to 2. -/
theorem claim9_witness :
    blockFour.WellFormed ∧ 1 ≤ 1 ∧ 1 + 3 ≤ blockFour.height ∧
    1 + 3 ≤ blockFour.width ∧
    (∀ r c, r < blockFour.height → c < blockFour.width →
      blockFour.cells.getD (blockFour.get_index r c) Cell.Dead =
        if 1 ≤ r ∧ r ≤ 1 + 1 ∧ 1 ≤ c ∧ c ≤ 1 + 1 then Cell.Alive
        else Cell.Dead) ∧
    (∃ u', blockFour.tick = some u' ∧ u'.cells = blockFour.cells ∧
      u'.dirty = false) :=
  have hpat : ∀ r c, r < blockFour.height → c < blockFour.width →
      blockFour.cells.getD (blockFour.get_index r c) Cell.Dead =
        if 1 ≤ r ∧ r ≤ 1 + 1 ∧ 1 ≤ c ∧ c ≤ 1 + 1 then Cell.Alive
        else Cell.Dead := by
    intro r c hr hc
    have hr4 : r < 4 := hr
    have hc4 : c < 4 := hc
    interval_cases r <;> interval_cases c <;> decide
  ⟨⟨rfl, by decide, by decide⟩, by decide, by decide, by decide, hpat,
    claim9_block_still_life blockFour 1 1 ⟨rfl, by decide, by decide⟩
      (by decide) (by decide) (by decide) (by decide) hpat⟩
